import Mathlib

/-!
Verification of the `backon` crate's `RetryWithContext` driver.

A shallow embedding of `src/backon/src/retry_with_context.rs`.

The Rust source is a poll-based state machine (`RetryWithContext::poll`)
that repeatedly invokes a fallible asynchronous operation carrying a
context value, consulting a retry predicate and a backoff schedule after
each failure, and sleeping between attempts.

The embedding has two layers:

* a configuration layer: the `RetryWithContext` structure and its fluent
  methods `new`, `sleep`, `context`, `when`, `withNotify` (the last models
  the Rust method `notify`, renamed because Lean does not allow a method
  and a field of the same name), with the Rust `assert!` panic in `sleep`
  modelled as `Option.none`;

* an execution layer: `pollRun`, a fuel-indexed executable function that
  drives the `poll` loop to completion.  Futures are resolved at their
  await points (the operation's future resolves to its output pair, the
  sleep future to completion), which is faithful for run-to-completion
  properties.  The `FnMut` statefulness of the operation is modelled by
  indexing it with the number of prior invocations.  Side effects of the
  collaborators (operation invocation and resolution, predicate query,
  backoff query, notify call, sleep creation and completion) are recorded
  in an event trace, in the exact order the Rust code performs them.
  `ctx.take().expect(..)` panics are modelled by the `panicked` outcome.
-/

/-- Rust's `std::time::Duration`, abstracted to its nanosecond count. -/
abbrev Duration := Nat

/-- The `State` enum of the driver (`retry_with_context.rs`, line 287):
`Idle(Option<Ctx>)`, `Polling(Fut)`, `Sleeping((Option<Ctx>, SleepFut))`. -/
inductive State (Ctx Fut SleepFut : Type) : Type where
  | Idle : Option Ctx → State Ctx Fut SleepFut
  | Polling : Fut → State Ctx Fut SleepFut
  | Sleeping : Option Ctx × SleepFut → State Ctx Fut SleepFut

/-- The `RetryWithContext` struct (line 103): a backoff, a retry
predicate, a notify callback, the operation, a sleeper and the state.
The field types are kept generic, mirroring the Rust type parameters
`B, RF, NF, FutureFn, SF`. -/
structure RetryWithContext (B FutureFn SF RF NF Ctx Fut SleepFut : Type) : Type where
  backoff : B
  retryable : RF
  notify : NF
  future_fn : FutureFn
  sleep_fn : SF
  state : State Ctx Fut SleepFut

/-- Models `RetryWithContext::new` (line 130): defaults are a predicate accepting
every error, a no-op notify, the default sleeper (modelled by `Unit`) and
state `Idle(None)`. -/
def RetryWithContext.new {B FutureFn Ctx Fut SleepFut E : Type}
    (future_fn : FutureFn) (backoff : B) :
    RetryWithContext B FutureFn Unit (E → Bool) (E → Duration → Unit) Ctx Fut SleepFut :=
  { backoff := backoff
    retryable := fun _ => true
    notify := fun _ _ => ()
    future_fn := future_fn
    sleep_fn := ()
    state := State.Idle none }

/-- Models `RetryWithContext::sleep` (line 157): replaces the sleeper.  The Rust
`assert!(matches!(self.state, State::Idle(None)), "sleep must be set before
context")` panic is modelled by returning `none`. -/
def RetryWithContext.sleep {B FutureFn SF SN RF NF Ctx Fut SleepFut : Type}
    (self : RetryWithContext B FutureFn SF RF NF Ctx Fut SleepFut) (sleep_fn : SN) :
    Option (RetryWithContext B FutureFn SN RF NF Ctx Fut SleepFut) :=
  match self.state with
  | State.Idle none =>
      some { backoff := self.backoff
             retryable := self.retryable
             notify := self.notify
             future_fn := self.future_fn
             sleep_fn := sleep_fn
             state := State.Idle none }
  | _ => none

/-- Models `RetryWithContext::context` (line 179): stores the context, setting the
state to `Idle(Some(context))`. -/
def RetryWithContext.context {B FutureFn SF RF NF Ctx Fut SleepFut : Type}
    (self : RetryWithContext B FutureFn SF RF NF Ctx Fut SleepFut) (context : Ctx) :
    RetryWithContext B FutureFn SF RF NF Ctx Fut SleepFut :=
  { backoff := self.backoff
    retryable := self.retryable
    notify := self.notify
    future_fn := self.future_fn
    sleep_fn := self.sleep_fn
    state := State.Idle (some context) }

/-- Models `RetryWithContext::when` (line 222): replaces the retry predicate and
carries every other field over. -/
def RetryWithContext.when {B FutureFn SF RF RN NF Ctx Fut SleepFut : Type}
    (self : RetryWithContext B FutureFn SF RF NF Ctx Fut SleepFut) (retryable : RN) :
    RetryWithContext B FutureFn SF RN NF Ctx Fut SleepFut :=
  { backoff := self.backoff
    retryable := retryable
    notify := self.notify
    future_fn := self.future_fn
    sleep_fn := self.sleep_fn
    state := self.state }

/-- Models `RetryWithContext::notify` (line 271): replaces the notify callback and
carries every other field over.  Named `withNotify` here because the field
is already named `notify`. -/
def RetryWithContext.withNotify {B FutureFn SF RF NF NN Ctx Fut SleepFut : Type}
    (self : RetryWithContext B FutureFn SF RF NF Ctx Fut SleepFut) (notify : NN) :
    RetryWithContext B FutureFn SF RF NN Ctx Fut SleepFut :=
  { backoff := self.backoff
    retryable := self.retryable
    notify := notify
    future_fn := self.future_fn
    sleep_fn := self.sleep_fn
    state := self.state }

/-- Observable events of one execution of the `poll` loop, in source
order: the operation is invoked (`Idle` arm, line 316), the operation's
future resolves (`none` for `Ok`, `some e` for `Err(e)`; line 327), the
retry predicate is queried with the error and its answer (line 332), the
backoff's `next()` is queried with its answer (line 335), the notify
callback is invoked with the error and the delay (line 338), the sleep
future is created with a delay (line 340), and a sleep completes
(line 354). -/
inductive Event (E : Type) : Type where
  | opCall : Event E
  | opResolved : Option E → Event E
  | predCall : E → Bool → Event E
  | backoffCall : Option Duration → Event E
  | notifyCall : E → Duration → Event E
  | sleepCreated : Duration → Event E
  | sleepCompleted : Duration → Event E
  deriving DecidableEq, Repr

/-- Outcome of driving the `poll` loop with a given amount of fuel:
`done ctx res` models `Poll::Ready((ctx, res))`, `panicked` models an
`expect("context must be valid")` panic, and `pending` means the fuel ran
out before the session resolved. -/
inductive RunOutcome (T E Ctx : Type) : Type where
  | done : Ctx → Except E T → RunOutcome T E Ctx
  | panicked : RunOutcome T E Ctx
  | pending : RunOutcome T E Ctx

/-- Execution of `RetryWithContext::poll` (line 305) driven to completion,
one fuel unit per iteration of the `loop`.  `next` is the backoff's
`Backoff::next` acting on backoff state `σ`, `retryable` the predicate,
`future_fn` the operation (indexed by the number of prior invocations to
model `FnMut` statefulness, and resolved to its output pair).  The `Nat`
argument after the state counts prior operation invocations; the trace
lists the events of the run in order. -/
def pollRun {σ T E Ctx : Type} (next : σ → Option Duration × σ)
    (retryable : E → Bool) (future_fn : Nat → Ctx → Ctx × Except E T) :
    Nat → State Ctx (Ctx × Except E T) Duration → Nat → σ →
    RunOutcome T E Ctx × List (Event E)
  | 0, _, _, _ => (RunOutcome.pending, [])
  | _ + 1, State.Idle none, _, _ => (RunOutcome.panicked, [])
  | fuel + 1, State.Idle (some ctx), k, b =>
      let r := pollRun next retryable future_fn fuel
        (State.Polling (future_fn k ctx)) (k + 1) b
      (r.1, Event.opCall :: r.2)
  | _ + 1, State.Polling (ctx, Except.ok v), _, _ =>
      (RunOutcome.done ctx (Except.ok v), [Event.opResolved none])
  | fuel + 1, State.Polling (ctx, Except.error e), k, b =>
      if retryable e then
        match next b with
        | (none, _) =>
            (RunOutcome.done ctx (Except.error e),
              [Event.opResolved (some e), Event.predCall e true,
                Event.backoffCall none])
        | (some d, b2) =>
            let r := pollRun next retryable future_fn fuel
              (State.Sleeping (some ctx, d)) k b2
            (r.1, Event.opResolved (some e) :: Event.predCall e true ::
              Event.backoffCall (some d) :: Event.notifyCall e d ::
              Event.sleepCreated d :: r.2)
      else
        (RunOutcome.done ctx (Except.error e),
          [Event.opResolved (some e), Event.predCall e false])
  | _ + 1, State.Sleeping (none, d), _, _ =>
      (RunOutcome.panicked, [Event.sleepCompleted d])
  | fuel + 1, State.Sleeping (some ctx, d), k, b =>
      let r := pollRun next retryable future_fn fuel
        (State.Idle (some ctx)) k b
      (r.1, Event.sleepCompleted d :: r.2)

/-- Is an event an operation invocation? -/
def isOpCall {E : Type} : Event E → Bool
  | Event.opCall => true
  | _ => false

/-- Is an event a query of the backoff's `next()`? -/
def isBackoffCall {E : Type} : Event E → Bool
  | Event.backoffCall _ => true
  | _ => false

/-- Is an event the query of the backoff's `next()` that answered `None`? -/
def isBackoffNone {E : Type} : Event E → Bool
  | Event.backoffCall none => true
  | _ => false

/-- Is an event the creation of a sleep future? -/
def isSleepCreated {E : Type} : Event E → Bool
  | Event.sleepCreated _ => true
  | _ => false

/-- Number of operation invocations recorded in a trace. -/
def countOpCalls {E : Type} (tr : List (Event E)) : Nat :=
  tr.countP (fun ev => isOpCall ev)

/-- The `(error, delay)` arguments of the notify calls of a trace, in
order. -/
def notifyEvents {E : Type} (tr : List (Event E)) : List (E × Duration) :=
  tr.filterMap fun ev =>
    match ev with
    | Event.notifyCall e d => some (e, d)
    | _ => none

/-- The delays the backoff produced (the `Some` answers of its `next()`
queries) recorded in a trace, in order. -/
def scheduledDelays {E : Type} (tr : List (Event E)) : List Duration :=
  tr.filterMap fun ev =>
    match ev with
    | Event.backoffCall (some d) => some d
    | _ => none

/-- Does the trace record a `next()` query answered `None`? -/
def hasBackoffNone {E : Type} (tr : List (Event E)) : Bool :=
  tr.any (fun ev => isBackoffNone ev)

/-- After a `next()` query answered `None`, no further `next()` query may
appear in the trace. -/
def noBackoffAfterNone {E : Type} : List (Event E) → Bool
  | [] => true
  | ev :: rest =>
      if isBackoffNone ev then !(rest.any (fun x => isBackoffCall x))
      else noBackoffAfterNone rest

/-- Lookahead state of the notify-discipline checker: after the predicate
accepts an error, the checker expects the backoff query; after the backoff
yields a delay, the notify call with exactly that error and delay; after
the notify call, the creation of the sleep future with that delay. -/
inductive NotifyExpect (E : Type) : Type where
  | normal : NotifyExpect E
  | expectBackoff : E → NotifyExpect E
  | expectNotify : E → Duration → NotifyExpect E
  | expectSleep : Duration → NotifyExpect E

/-- One step of the notify-discipline checker; `none` means the trace
violates the discipline. -/
def notifyStep {E : Type} [DecidableEq E] :
    NotifyExpect E → Event E → Option (NotifyExpect E)
  | NotifyExpect.normal, Event.predCall e true => some (NotifyExpect.expectBackoff e)
  | NotifyExpect.normal, Event.notifyCall _ _ => none
  | NotifyExpect.normal, _ => some NotifyExpect.normal
  | NotifyExpect.expectBackoff e, Event.backoffCall (some d) =>
      some (NotifyExpect.expectNotify e d)
  | NotifyExpect.expectBackoff _, Event.backoffCall none => some NotifyExpect.normal
  | NotifyExpect.expectBackoff _, _ => none
  | NotifyExpect.expectNotify e d, Event.notifyCall e2 d2 =>
      if e == e2 && d == d2 then some (NotifyExpect.expectSleep d) else none
  | NotifyExpect.expectNotify _ _, _ => none
  | NotifyExpect.expectSleep d, Event.sleepCreated d2 =>
      if d == d2 then some NotifyExpect.normal else none
  | NotifyExpect.expectSleep _, _ => none

/-- The notify-discipline checker run from a given lookahead state. -/
def notifyOkAux {E : Type} [DecidableEq E] :
    NotifyExpect E → List (Event E) → Bool
  | _, [] => true
  | st, ev :: rest =>
      match notifyStep st ev with
      | none => false
      | some st2 => notifyOkAux st2 rest

/-- A trace obeys the notify discipline: every notify call carries exactly
the error the predicate just accepted and the delay the backoff just
produced, sits between the backoff query and the creation of the
corresponding sleep future, and notify calls occur nowhere else. -/
def notifyOk {E : Type} [DecidableEq E] (tr : List (Event E)) : Bool :=
  notifyOkAux NotifyExpect.normal tr

/-- Lookahead state of the predicate/backoff-discipline checker: after an
attempt resolves with an error, exactly one predicate query with that
error must follow; after the predicate accepts, exactly one backoff query;
a rejection or a success ends the session. -/
inductive AttemptPhase (E : Type) : Type where
  | normal : AttemptPhase E
  | expectPred : E → AttemptPhase E
  | expectBackoff : AttemptPhase E
  | terminated : AttemptPhase E

/-- One step of the predicate/backoff-discipline checker; `none` means the
trace violates the discipline. -/
def attemptStep {E : Type} [DecidableEq E] :
    AttemptPhase E → Event E → Option (AttemptPhase E)
  | AttemptPhase.normal, Event.opResolved (some e) => some (AttemptPhase.expectPred e)
  | AttemptPhase.normal, Event.opResolved none => some AttemptPhase.terminated
  | AttemptPhase.normal, Event.predCall _ _ => none
  | AttemptPhase.normal, Event.backoffCall _ => none
  | AttemptPhase.normal, _ => some AttemptPhase.normal
  | AttemptPhase.expectPred e, Event.predCall e2 accepted =>
      if e == e2 then
        if accepted then some AttemptPhase.expectBackoff
        else some AttemptPhase.terminated
      else none
  | AttemptPhase.expectPred _, _ => none
  | AttemptPhase.expectBackoff, Event.backoffCall _ => some AttemptPhase.normal
  | AttemptPhase.expectBackoff, _ => none
  | AttemptPhase.terminated, _ => none

/-- The predicate/backoff-discipline checker run from a given phase. -/
def predBackoffOkAux {E : Type} [DecidableEq E] :
    AttemptPhase E → List (Event E) → Bool
  | _, [] => true
  | st, ev :: rest =>
      match attemptStep st ev with
      | none => false
      | some st2 => predBackoffOkAux st2 rest

/-- A trace obeys the predicate/backoff discipline: each failed attempt is
followed by exactly one predicate query carrying that attempt's error; the
backoff is queried exactly once right after the predicate accepts and
never otherwise; a rejected error or a success is followed by no further
event. -/
def predBackoffOk {E : Type} [DecidableEq E] (tr : List (Event E)) : Bool :=
  predBackoffOkAux AttemptPhase.normal tr

/-- A backoff over a finite schedule: `next()` yields the head of the
remaining schedule, so a schedule of length `N` yields exactly `N` delays
and then `None` (and keeps yielding `None` if queried again). -/
def listNext (l : List Duration) : Option Duration × List Duration :=
  (l.head?, l.tail)

/-- An operation that fails on every invocation: on the `k`-th call with
context `c` it returns the mutated context `cf k c` together with the
error `ef k c`. -/
def failingOp {T E Ctx : Type} (cf : Nat → Ctx → Ctx) (ef : Nat → Ctx → E) :
    Nat → Ctx → Ctx × Except E T :=
  fun k c => (cf k c, Except.error (ef k c))

/-- The context produced by `n` consecutive invocations of the
always-failing operation, starting at invocation index `k` with
context `c`. -/
def iterCtxFrom {Ctx : Type} (cf : Nat → Ctx → Ctx) : Nat → Ctx → Nat → Ctx
  | _, c, 0 => c
  | k, c, n + 1 => iterCtxFrom cf (k + 1) (cf k c) n

/-- The event trace of a completed session of the always-failing operation
against the finite-schedule backoff, starting at invocation index `k` with
context `c`: one retried attempt per scheduled delay, then the final
attempt whose error meets schedule exhaustion. -/
def failTrace {E Ctx : Type} (cf : Nat → Ctx → Ctx) (ef : Nat → Ctx → E) :
    List Duration → Nat → Ctx → List (Event E)
  | [], k, c =>
      [Event.opCall, Event.opResolved (some (ef k c)),
        Event.predCall (ef k c) true, Event.backoffCall none]
  | d :: rest, k, c =>
      Event.opCall :: Event.opResolved (some (ef k c)) ::
      Event.predCall (ef k c) true :: Event.backoffCall (some d) ::
      Event.notifyCall (ef k c) d :: Event.sleepCreated d ::
      Event.sleepCompleted d :: failTrace cf ef rest (k + 1) (cf k c)

/-- The `(error, delay)` pairs the notify callback receives in a completed
session of the always-failing operation against the finite-schedule
backoff: the `j`-th scheduled delay paired with the `j`-th attempt's
error. -/
def expectedNotify {E Ctx : Type} (cf : Nat → Ctx → Ctx) (ef : Nat → Ctx → E) :
    List Duration → Nat → Ctx → List (E × Duration)
  | [], _, _ => []
  | d :: rest, k, c => (ef k c, d) :: expectedNotify cf ef rest (k + 1) (cf k c)

section StepLemmas

variable {σ T E Ctx : Type} (next : σ → Option Duration × σ) (retryable : E → Bool)
  (future_fn : Nat → Ctx → Ctx × Except E T)

theorem pollRun_fuel_zero (st : State Ctx (Ctx × Except E T) Duration) (k : Nat) (b : σ) :
    pollRun next retryable future_fn 0 st k b = (RunOutcome.pending, []) := rfl

theorem pollRun_idle_absent (fuel k : Nat) (b : σ) :
    pollRun next retryable future_fn (Nat.succ fuel) (State.Idle none) k b =
      (RunOutcome.panicked, []) := rfl

theorem pollRun_idle (fuel : Nat) (c : Ctx) (k : Nat) (b : σ) :
    pollRun next retryable future_fn (Nat.succ fuel) (State.Idle (some c)) k b =
      ((pollRun next retryable future_fn fuel (State.Polling (future_fn k c)) (k + 1) b).1,
        Event.opCall ::
          (pollRun next retryable future_fn fuel (State.Polling (future_fn k c)) (k + 1) b).2) := rfl

theorem pollRun_polling_ok (fuel : Nat) (c : Ctx) (v : T) (k : Nat) (b : σ) :
    pollRun next retryable future_fn (Nat.succ fuel) (State.Polling (c, Except.ok v)) k b =
      (RunOutcome.done c (Except.ok v), [Event.opResolved none]) := rfl

theorem pollRun_polling_reject (fuel : Nat) (c : Ctx) (e : E) (k : Nat) (b : σ)
    (hret : retryable e = false) :
    pollRun next retryable future_fn (Nat.succ fuel) (State.Polling (c, Except.error e)) k b =
      (RunOutcome.done c (Except.error e),
        [Event.opResolved (some e), Event.predCall e false]) := by
  simp [pollRun, hret]

theorem pollRun_polling_exhaust (fuel : Nat) (c : Ctx) (e : E) (k : Nat) (b b2 : σ)
    (hret : retryable e = true) (hb : next b = (none, b2)) :
    pollRun next retryable future_fn (Nat.succ fuel) (State.Polling (c, Except.error e)) k b =
      (RunOutcome.done c (Except.error e),
        [Event.opResolved (some e), Event.predCall e true, Event.backoffCall none]) := by
  simp [pollRun, hret, hb]

theorem pollRun_polling_retry (fuel : Nat) (c : Ctx) (e : E) (k : Nat) (b b2 : σ) (d : Duration)
    (hret : retryable e = true) (hb : next b = (some d, b2)) :
    pollRun next retryable future_fn (Nat.succ fuel) (State.Polling (c, Except.error e)) k b =
      ((pollRun next retryable future_fn fuel (State.Sleeping (some c, d)) k b2).1,
        Event.opResolved (some e) :: Event.predCall e true :: Event.backoffCall (some d) ::
          Event.notifyCall e d :: Event.sleepCreated d ::
          (pollRun next retryable future_fn fuel (State.Sleeping (some c, d)) k b2).2) := by
  simp [pollRun, hret, hb]

theorem pollRun_sleeping_absent (fuel : Nat) (d : Duration) (k : Nat) (b : σ) :
    pollRun next retryable future_fn (Nat.succ fuel) (State.Sleeping (none, d)) k b =
      (RunOutcome.panicked, [Event.sleepCompleted d]) := rfl

theorem pollRun_sleeping (fuel : Nat) (c : Ctx) (d : Duration) (k : Nat) (b : σ) :
    pollRun next retryable future_fn (Nat.succ fuel) (State.Sleeping (some c, d)) k b =
      ((pollRun next retryable future_fn fuel (State.Idle (some c)) k b).1,
        Event.sleepCompleted d ::
          (pollRun next retryable future_fn fuel (State.Idle (some c)) k b).2) := rfl

end StepLemmas

theorem pollRun_failingOp_eq {T E Ctx : Type} (cf : Nat → Ctx → Ctx) (ef : Nat → Ctx → E) :
    ∀ (ds : List Duration) (k : Nat) (c : Ctx),
    pollRun (T := T) listNext (fun _ => true) (failingOp cf ef)
      (3 * ds.length + 2) (State.Idle (some c)) k ds
    = (RunOutcome.done (iterCtxFrom cf k c (ds.length + 1))
        (Except.error (ef (k + ds.length) (iterCtxFrom cf k c ds.length))),
       failTrace cf ef ds k c)
  | [], k, c => by
      have h2 : 3 * ([] : List Duration).length + 2 = Nat.succ (Nat.succ 0) := by simp
      rw [h2, pollRun_idle]
      have hop : failingOp (T := T) cf ef k c = (cf k c, Except.error (ef k c)) := rfl
      rw [hop, pollRun_polling_exhaust listNext (fun _ => true) (failingOp cf ef)
        0 (cf k c) (ef k c) (k + 1) [] [] rfl rfl]
      simp [failTrace, iterCtxFrom]
  | d :: rest, k, c => by
      have ih := pollRun_failingOp_eq (T := T) cf ef rest (k + 1) (cf k c)
      have h3 : 3 * (d :: rest).length + 2 =
          Nat.succ (Nat.succ (Nat.succ (3 * rest.length + 2))) := by simp; omega
      rw [h3, pollRun_idle]
      have hop : failingOp (T := T) cf ef k c = (cf k c, Except.error (ef k c)) := rfl
      rw [hop, pollRun_polling_retry listNext (fun _ => true) (failingOp cf ef)
        (Nat.succ (3 * rest.length + 2)) (cf k c) (ef k c) (k + 1) (d :: rest) rest d rfl rfl,
        pollRun_sleeping, ih]
      have hidx : k + 1 + rest.length = k + (rest.length + 1) := by omega
      simp [failTrace, iterCtxFrom, hidx]

theorem countOpCalls_failTrace {E Ctx : Type} (cf : Nat → Ctx → Ctx) (ef : Nat → Ctx → E) :
    ∀ (ds : List Duration) (k : Nat) (c : Ctx),
    countOpCalls (failTrace cf ef ds k c) = ds.length + 1
  | [], k, c => by simp [failTrace, countOpCalls, isOpCall]
  | d :: rest, k, c => by
      have ih := countOpCalls_failTrace cf ef rest (k + 1) (cf k c)
      simp [failTrace, countOpCalls, isOpCall] at ih ⊢
      omega

theorem notifyEvents_failTrace {E Ctx : Type} (cf : Nat → Ctx → Ctx) (ef : Nat → Ctx → E) :
    ∀ (ds : List Duration) (k : Nat) (c : Ctx),
    notifyEvents (failTrace cf ef ds k c) = expectedNotify cf ef ds k c
  | [], k, c => by simp [failTrace, notifyEvents, expectedNotify]
  | d :: rest, k, c => by
      have ih := notifyEvents_failTrace cf ef rest (k + 1) (cf k c)
      simp [failTrace, notifyEvents, expectedNotify] at ih ⊢
      exact ih

theorem expectedNotify_map_snd {E Ctx : Type} (cf : Nat → Ctx → Ctx) (ef : Nat → Ctx → E) :
    ∀ (ds : List Duration) (k : Nat) (c : Ctx),
    (expectedNotify cf ef ds k c).map Prod.snd = ds
  | [], _, _ => by simp [expectedNotify]
  | d :: rest, k, c => by
      have ih := expectedNotify_map_snd cf ef rest (k + 1) (cf k c)
      simp [expectedNotify, ih]

theorem notifyOk_pollRun {σ T E Ctx : Type} [DecidableEq E] (next : σ → Option Duration × σ)
    (retryable : E → Bool) (future_fn : Nat → Ctx → Ctx × Except E T) :
    ∀ (fuel : Nat) (st : State Ctx (Ctx × Except E T) Duration) (k : Nat) (b : σ),
    notifyOk (pollRun next retryable future_fn fuel st k b).2 = true := by
  intro fuel
  induction fuel with
  | zero => intro st k b; rfl
  | succ fuel ih =>
    intro st k b
    match st with
    | State.Idle none => rfl
    | State.Idle (some c) =>
        rw [pollRun_idle]
        exact ih (State.Polling (future_fn k c)) (k + 1) b
    | State.Polling (c, Except.ok v) => rfl
    | State.Polling (c, Except.error e) =>
        rcases hret : retryable e with hfalse | htrue
        · rw [pollRun_polling_reject next retryable future_fn fuel c e k b hret]
          rfl
        · rcases hb : next b with ⟨o, b2⟩
          rcases o with _ | d
          · rw [pollRun_polling_exhaust next retryable future_fn fuel c e k b b2 hret hb]
            rfl
          · rw [pollRun_polling_retry next retryable future_fn fuel c e k b b2 d hret hb]
            have htail := ih (State.Sleeping (some c, d)) k b2
            simp only [notifyOk, notifyOkAux, notifyStep]
            simp only [beq_self_eq_true, Bool.and_self, if_true]
            exact htail
    | State.Sleeping (none, d) => rfl
    | State.Sleeping (some c, d) =>
        rw [pollRun_sleeping]
        exact ih (State.Idle (some c)) k b

theorem predBackoffOk_pollRun {σ T E Ctx : Type} [DecidableEq E] (next : σ → Option Duration × σ)
    (retryable : E → Bool) (future_fn : Nat → Ctx → Ctx × Except E T) :
    ∀ (fuel : Nat) (st : State Ctx (Ctx × Except E T) Duration) (k : Nat) (b : σ),
    predBackoffOk (pollRun next retryable future_fn fuel st k b).2 = true := by
  intro fuel
  induction fuel with
  | zero => intro st k b; rfl
  | succ fuel ih =>
    intro st k b
    match st with
    | State.Idle none => rfl
    | State.Idle (some c) =>
        rw [pollRun_idle]
        exact ih (State.Polling (future_fn k c)) (k + 1) b
    | State.Polling (c, Except.ok v) => rfl
    | State.Polling (c, Except.error e) =>
        rcases hret : retryable e with hfalse | htrue
        · rw [pollRun_polling_reject next retryable future_fn fuel c e k b hret]
          simp [predBackoffOk, predBackoffOkAux, attemptStep]
        · rcases hb : next b with ⟨o, b2⟩
          rcases o with _ | d
          · rw [pollRun_polling_exhaust next retryable future_fn fuel c e k b b2 hret hb]
            simp [predBackoffOk, predBackoffOkAux, attemptStep]
          · rw [pollRun_polling_retry next retryable future_fn fuel c e k b b2 d hret hb]
            have htail := ih (State.Sleeping (some c, d)) k b2
            simp only [predBackoffOk, predBackoffOkAux, attemptStep, beq_self_eq_true, if_true]
            exact htail
    | State.Sleeping (none, d) => rfl
    | State.Sleeping (some c, d) =>
        rw [pollRun_sleeping]
        exact ih (State.Idle (some c)) k b

theorem noBackoffAfterNone_pollRun {σ T E Ctx : Type} (next : σ → Option Duration × σ)
    (retryable : E → Bool) (future_fn : Nat → Ctx → Ctx × Except E T) :
    ∀ (fuel : Nat) (st : State Ctx (Ctx × Except E T) Duration) (k : Nat) (b : σ),
    noBackoffAfterNone (pollRun next retryable future_fn fuel st k b).2 = true := by
  intro fuel
  induction fuel with
  | zero => intro st k b; rfl
  | succ fuel ih =>
    intro st k b
    match st with
    | State.Idle none => rfl
    | State.Idle (some c) =>
        rw [pollRun_idle]
        exact ih (State.Polling (future_fn k c)) (k + 1) b
    | State.Polling (c, Except.ok v) => rfl
    | State.Polling (c, Except.error e) =>
        rcases hret : retryable e with hfalse | htrue
        · rw [pollRun_polling_reject next retryable future_fn fuel c e k b hret]
          rfl
        · rcases hb : next b with ⟨o, b2⟩
          rcases o with _ | d
          · rw [pollRun_polling_exhaust next retryable future_fn fuel c e k b b2 hret hb]
            rfl
          · rw [pollRun_polling_retry next retryable future_fn fuel c e k b b2 d hret hb]
            exact ih (State.Sleeping (some c, d)) k b2
    | State.Sleeping (none, d) => rfl
    | State.Sleeping (some c, d) =>
        rw [pollRun_sleeping]
        exact ih (State.Idle (some c)) k b

theorem notifyDelays_eq_scheduled_pollRun {σ T E Ctx : Type} (next : σ → Option Duration × σ)
    (retryable : E → Bool) (future_fn : Nat → Ctx → Ctx × Except E T) :
    ∀ (fuel : Nat) (st : State Ctx (Ctx × Except E T) Duration) (k : Nat) (b : σ),
    (notifyEvents (pollRun next retryable future_fn fuel st k b).2).map Prod.snd
      = scheduledDelays (pollRun next retryable future_fn fuel st k b).2 := by
  intro fuel
  induction fuel with
  | zero => intro st k b; rfl
  | succ fuel ih =>
    intro st k b
    match st with
    | State.Idle none => rfl
    | State.Idle (some c) =>
        rw [pollRun_idle]
        exact ih (State.Polling (future_fn k c)) (k + 1) b
    | State.Polling (c, Except.ok v) => rfl
    | State.Polling (c, Except.error e) =>
        rcases hret : retryable e with hfalse | htrue
        · rw [pollRun_polling_reject next retryable future_fn fuel c e k b hret]
          rfl
        · rcases hb : next b with ⟨o, b2⟩
          rcases o with _ | d
          · rw [pollRun_polling_exhaust next retryable future_fn fuel c e k b b2 hret hb]
            rfl
          · rw [pollRun_polling_retry next retryable future_fn fuel c e k b b2 d hret hb]
            exact congrArg (List.cons d) (ih (State.Sleeping (some c, d)) k b2)
    | State.Sleeping (none, d) => rfl
    | State.Sleeping (some c, d) =>
        rw [pollRun_sleeping]
        exact ih (State.Idle (some c)) k b

theorem pollRun_done_from_op {σ T E Ctx : Type} (next : σ → Option Duration × σ)
    (retryable : E → Bool) (future_fn : Nat → Ctx → Ctx × Except E T) :
    ∀ (fuel : Nat) (st : State Ctx (Ctx × Except E T) Duration) (k : Nat) (b : σ)
      (c : Ctx) (res : Except E T),
    (pollRun next retryable future_fn fuel st k b).1 = RunOutcome.done c res →
    st = State.Polling (c, res) ∨ ∃ j cj, future_fn j cj = (c, res) := by
  intro fuel
  induction fuel with
  | zero => intro st k b c res h; rw [pollRun_fuel_zero] at h; simp at h
  | succ fuel ih =>
    intro st k b c res h
    match st with
    | State.Idle none => rw [pollRun_idle_absent] at h; simp at h
    | State.Idle (some c0) =>
        rw [pollRun_idle] at h
        rcases ih (State.Polling (future_fn k c0)) (k + 1) b c res h with h2 | h2
        · right
          refine ⟨k, c0, ?_⟩
          exact (State.Polling.injEq _ _).mp h2
        · right; exact h2
    | State.Polling (c0, Except.ok v) =>
        rw [pollRun_polling_ok] at h
        injection h with h1 h2
        left
        rw [h1, h2]
    | State.Polling (c0, Except.error e) =>
        rcases hret : retryable e with hfalse | htrue
        · rw [pollRun_polling_reject next retryable future_fn fuel c0 e k b hret] at h
          injection h with h1 h2
          left
          rw [h1, h2]
        · rcases hb : next b with ⟨o, b2⟩
          rcases o with _ | d
          · rw [pollRun_polling_exhaust next retryable future_fn fuel c0 e k b b2 hret hb] at h
            injection h with h1 h2
            left
            rw [h1, h2]
          · rw [pollRun_polling_retry next retryable future_fn fuel c0 e k b b2 d hret hb] at h
            rcases ih (State.Sleeping (some c0, d)) k b2 c res h with h2 | h2
            · exact absurd h2 (by simp)
            · right; exact h2
    | State.Sleeping (none, d) => rw [pollRun_sleeping_absent] at h; simp at h
    | State.Sleeping (some c0, d) =>
        rw [pollRun_sleeping] at h
        rcases ih (State.Idle (some c0)) k b c res h with h2 | h2
        · exact absurd h2 (by simp)
        · right; exact h2

theorem pollRun_error_trace_suffix {σ T E Ctx : Type} (next : σ → Option Duration × σ)
    (retryable : E → Bool) (future_fn : Nat → Ctx → Ctx × Except E T) :
    ∀ (fuel : Nat) (st : State Ctx (Ctx × Except E T) Duration) (k : Nat) (b : σ)
      (c : Ctx) (e : E),
    (pollRun next retryable future_fn fuel st k b).1 = RunOutcome.done c (Except.error e) →
    (∃ pre, (pollRun next retryable future_fn fuel st k b).2
        = pre ++ [Event.opResolved (some e), Event.predCall e false])
    ∨ (∃ pre, (pollRun next retryable future_fn fuel st k b).2
        = pre ++ [Event.opResolved (some e), Event.predCall e true, Event.backoffCall none]) := by
  intro fuel
  induction fuel with
  | zero => intro st k b c e h; rw [pollRun_fuel_zero] at h; simp at h
  | succ fuel ih =>
    intro st k b c e h
    match st with
    | State.Idle none => rw [pollRun_idle_absent] at h; simp at h
    | State.Idle (some c0) =>
        rw [pollRun_idle] at h ⊢
        rcases ih (State.Polling (future_fn k c0)) (k + 1) b c e h with ⟨pre, hp⟩ | ⟨pre, hp⟩
        · exact Or.inl ⟨Event.opCall :: pre, by simp [hp]⟩
        · exact Or.inr ⟨Event.opCall :: pre, by simp [hp]⟩
    | State.Polling (c0, Except.ok v) =>
        rw [pollRun_polling_ok] at h
        injection h with h1 h2
        injection h2
    | State.Polling (c0, Except.error e0) =>
        rcases hret : retryable e0 with hfalse | htrue
        · rw [pollRun_polling_reject next retryable future_fn fuel c0 e0 k b hret] at h ⊢
          injection h with h1 h2
          injection h2 with h3
          exact Or.inl ⟨[], by rw [h3]; rfl⟩
        · rcases hb : next b with ⟨o, b2⟩
          rcases o with _ | d
          · rw [pollRun_polling_exhaust next retryable future_fn fuel c0 e0 k b b2 hret hb] at h ⊢
            injection h with h1 h2
            injection h2 with h3
            exact Or.inr ⟨[], by rw [h3]; rfl⟩
          · rw [pollRun_polling_retry next retryable future_fn fuel c0 e0 k b b2 d hret hb] at h ⊢
            rcases ih (State.Sleeping (some c0, d)) k b2 c e h with ⟨pre, hp⟩ | ⟨pre, hp⟩
            · exact Or.inl ⟨Event.opResolved (some e0) :: Event.predCall e0 true ::
                Event.backoffCall (some d) :: Event.notifyCall e0 d ::
                Event.sleepCreated d :: pre, by simp [hp]⟩
            · exact Or.inr ⟨Event.opResolved (some e0) :: Event.predCall e0 true ::
                Event.backoffCall (some d) :: Event.notifyCall e0 d ::
                Event.sleepCreated d :: pre, by simp [hp]⟩
    | State.Sleeping (none, d) => rw [pollRun_sleeping_absent] at h; simp at h
    | State.Sleeping (some c0, d) =>
        rw [pollRun_sleeping] at h ⊢
        rcases ih (State.Idle (some c0)) k b c e h with ⟨pre, hp⟩ | ⟨pre, hp⟩
        · exact Or.inl ⟨Event.sleepCompleted d :: pre, by simp [hp]⟩
        · exact Or.inr ⟨Event.sleepCompleted d :: pre, by simp [hp]⟩

theorem pollRun_ok_trace_suffix {σ T E Ctx : Type} (next : σ → Option Duration × σ)
    (retryable : E → Bool) (future_fn : Nat → Ctx → Ctx × Except E T) :
    ∀ (fuel : Nat) (st : State Ctx (Ctx × Except E T) Duration) (k : Nat) (b : σ)
      (c : Ctx) (v : T),
    (pollRun next retryable future_fn fuel st k b).1 = RunOutcome.done c (Except.ok v) →
    ∃ pre, (pollRun next retryable future_fn fuel st k b).2
        = pre ++ [Event.opResolved none] := by
  intro fuel
  induction fuel with
  | zero => intro st k b c v h; rw [pollRun_fuel_zero] at h; simp at h
  | succ fuel ih =>
    intro st k b c v h
    match st with
    | State.Idle none => rw [pollRun_idle_absent] at h; simp at h
    | State.Idle (some c0) =>
        rw [pollRun_idle] at h ⊢
        rcases ih (State.Polling (future_fn k c0)) (k + 1) b c v h with ⟨pre, hp⟩
        exact ⟨Event.opCall :: pre, by simp [hp]⟩
    | State.Polling (c0, Except.ok v0) =>
        rw [pollRun_polling_ok] at h ⊢
        exact ⟨[], rfl⟩
    | State.Polling (c0, Except.error e0) =>
        rcases hret : retryable e0 with hfalse | htrue
        · rw [pollRun_polling_reject next retryable future_fn fuel c0 e0 k b hret] at h
          injection h with h1 h2
          injection h2
        · rcases hb : next b with ⟨o, b2⟩
          rcases o with _ | d
          · rw [pollRun_polling_exhaust next retryable future_fn fuel c0 e0 k b b2 hret hb] at h
            injection h with h1 h2
            injection h2
          · rw [pollRun_polling_retry next retryable future_fn fuel c0 e0 k b b2 d hret hb] at h ⊢
            rcases ih (State.Sleeping (some c0, d)) k b2 c v h with ⟨pre, hp⟩
            exact ⟨Event.opResolved (some e0) :: Event.predCall e0 true ::
              Event.backoffCall (some d) :: Event.notifyCall e0 d ::
              Event.sleepCreated d :: pre, by simp [hp]⟩
    | State.Sleeping (none, d) => rw [pollRun_sleeping_absent] at h; simp at h
    | State.Sleeping (some c0, d) =>
        rw [pollRun_sleeping] at h ⊢
        rcases ih (State.Idle (some c0)) k b c v h with ⟨pre, hp⟩
        exact ⟨Event.sleepCompleted d :: pre, by simp [hp]⟩

theorem backoffNone_done_pollRun {σ T E Ctx : Type} (next : σ → Option Duration × σ)
    (retryable : E → Bool) (future_fn : Nat → Ctx → Ctx × Except E T) :
    ∀ (fuel : Nat) (st : State Ctx (Ctx × Except E T) Duration) (k : Nat) (b : σ),
    hasBackoffNone (pollRun next retryable future_fn fuel st k b).2 = true →
    ∃ c e, (pollRun next retryable future_fn fuel st k b).1
        = RunOutcome.done c (Except.error e) := by
  intro fuel
  induction fuel with
  | zero => intro st k b h; rw [pollRun_fuel_zero] at h; simp [hasBackoffNone] at h
  | succ fuel ih =>
    intro st k b h
    match st with
    | State.Idle none => rw [pollRun_idle_absent] at h; simp [hasBackoffNone] at h
    | State.Idle (some c0) =>
        rw [pollRun_idle] at h ⊢
        refine ih (State.Polling (future_fn k c0)) (k + 1) b ?_
        simpa [hasBackoffNone, isBackoffNone] using h
    | State.Polling (c0, Except.ok v) =>
        rw [pollRun_polling_ok] at h
        simp [hasBackoffNone, isBackoffNone] at h
    | State.Polling (c0, Except.error e0) =>
        rcases hret : retryable e0 with hfalse | htrue
        · rw [pollRun_polling_reject next retryable future_fn fuel c0 e0 k b hret] at h
          simp [hasBackoffNone, isBackoffNone] at h
        · rcases hb : next b with ⟨o, b2⟩
          rcases o with _ | d
          · rw [pollRun_polling_exhaust next retryable future_fn fuel c0 e0 k b b2 hret hb]
            exact ⟨c0, e0, rfl⟩
          · rw [pollRun_polling_retry next retryable future_fn fuel c0 e0 k b b2 d hret hb] at h ⊢
            refine ih (State.Sleeping (some c0, d)) k b2 ?_
            simpa [hasBackoffNone, isBackoffNone] using h
    | State.Sleeping (none, d) =>
        rw [pollRun_sleeping_absent] at h
        simp [hasBackoffNone, isBackoffNone] at h
    | State.Sleeping (some c0, d) =>
        rw [pollRun_sleeping] at h ⊢
        refine ih (State.Idle (some c0)) k b ?_
        simpa [hasBackoffNone, isBackoffNone] using h

/-- C1: in a session where the operation fails on every attempt and the
predicate accepts every error, a backoff yielding exactly `N` delays and
then `None` makes the driver invoke the operation exactly `N + 1` times,
invoke notify exactly `N` times — once per scheduled delay, with the
corresponding delay — and resolve with the last attempt's error. -/
theorem claim1_exhausted_schedule {T E Ctx : Type} (cf : Nat → Ctx → Ctx)
    (ef : Nat → Ctx → E) (ds : List Duration) (c : Ctx) :
    pollRun (T := T) listNext (fun _ => true) (failingOp cf ef)
      (3 * ds.length + 2) (State.Idle (some c)) 0 ds
      = (RunOutcome.done (iterCtxFrom cf 0 c (ds.length + 1))
          (Except.error (ef ds.length (iterCtxFrom cf 0 c ds.length))),
         failTrace cf ef ds 0 c)
    ∧ countOpCalls (failTrace cf ef ds 0 c) = ds.length + 1
    ∧ notifyEvents (failTrace cf ef ds 0 c) = expectedNotify cf ef ds 0 c
    ∧ (notifyEvents (failTrace cf ef ds 0 c)).length = ds.length
    ∧ (notifyEvents (failTrace cf ef ds 0 c)).map Prod.snd = ds := by
  have hmain := pollRun_failingOp_eq (T := T) cf ef ds 0 c
  rw [Nat.zero_add] at hmain
  refine ⟨hmain, countOpCalls_failTrace cf ef ds 0 c, notifyEvents_failTrace cf ef ds 0 c, ?_, ?_⟩
  · rw [notifyEvents_failTrace cf ef ds 0 c]
    have := congrArg List.length (expectedNotify_map_snd cf ef ds 0 c)
    simpa using this
  · rw [notifyEvents_failTrace cf ef ds 0 c]
    exact expectedNotify_map_snd cf ef ds 0 c

/-- C2: if the first attempt's error is rejected by the predicate, the
operation is invoked exactly once, no sleep future is created and the
backoff is never queried, and the driver resolves immediately with that
attempt's context and the original error unchanged. -/
theorem claim2_nonretryable_first_error {σ T E Ctx : Type} (next : σ → Option Duration × σ)
    (retryable : E → Bool) (future_fn : Nat → Ctx → Ctx × Except E T)
    (fuel : Nat) (c c1 : Ctx) (e : E) (b : σ)
    (hop : future_fn 0 c = (c1, Except.error e))
    (hrej : retryable e = false) :
    pollRun next retryable future_fn (Nat.succ (Nat.succ fuel)) (State.Idle (some c)) 0 b
      = (RunOutcome.done c1 (Except.error e),
         [Event.opCall, Event.opResolved (some e), Event.predCall e false])
    ∧ countOpCalls
        [Event.opCall, Event.opResolved (some e), Event.predCall e false] = 1
    ∧ List.countP (fun ev => isBackoffCall ev)
        [Event.opCall, Event.opResolved (some e), Event.predCall e false] = 0
    ∧ List.countP (fun ev => isSleepCreated ev)
        [Event.opCall, Event.opResolved (some e), Event.predCall e false] = 0 := by
  refine ⟨?_, rfl, rfl, rfl⟩
  rw [pollRun_idle, hop, pollRun_polling_reject next retryable future_fn fuel c1 e (0 + 1) b hrej]

theorem claim2_nonretryable_first_error_witness :
    pollRun (T := Unit) (fun _ : Unit => (some 1, ())) (fun e : Nat => decide (e = 0))
      (fun _ c => (c + 1, Except.error 7)) 2 (State.Idle (some (0 : Nat))) 0 ()
      = (RunOutcome.done 1 (Except.error 7),
         [Event.opCall, Event.opResolved (some 7), Event.predCall 7 false]) :=
  (claim2_nonretryable_first_error (T := Unit) (fun _ : Unit => (some 1, ())) (fun e : Nat => decide (e = 0))
    (fun _ c => (c + 1, Except.error 7)) 0 0 1 7 () rfl rfl).1

/-- C3: calling the `sleep` configuration method while a context is
already stored is a fatal assertion at configuration time (modelled by
`none`); calling it while no context is set succeeds and returns the
driver with only the sleeper replaced. -/
theorem claim3_sleep_before_context {B FutureFn SF SN RF NF Ctx Fut SleepFut : Type}
    (r : RetryWithContext B FutureFn SF RF NF Ctx Fut SleepFut) (sf : SN) :
    (r.state = State.Idle none →
      r.sleep sf = some ⟨r.backoff, r.retryable, r.notify, r.future_fn, sf, State.Idle none⟩)
    ∧ (∀ c : Ctx, r.state = State.Idle (some c) → r.sleep sf = none) := by
  constructor
  · intro h
    simp [RetryWithContext.sleep, h]
  · intro c h
    simp [RetryWithContext.sleep, h]

theorem claim3_sleep_before_context_witness :
    RetryWithContext.sleep
      (⟨1, 2, 3, 4, 5, State.Idle none⟩ : RetryWithContext Nat Nat Nat Nat Nat Nat Nat Nat) true
      = some ⟨1, 2, 3, 4, true, State.Idle none⟩
    ∧ RetryWithContext.sleep
      (⟨1, 2, 3, 4, 5, State.Idle (some 9)⟩ : RetryWithContext Nat Nat Nat Nat Nat Nat Nat Nat) true
      = none :=
  ⟨(claim3_sleep_before_context ⟨1, 2, 3, 4, 5, State.Idle none⟩ true).1 rfl,
   (claim3_sleep_before_context ⟨1, 2, 3, 4, 5, State.Idle (some 9)⟩ true).2 9 rfl⟩

/-- C4: in every session, each notify call carries exactly the error the
predicate just accepted and the delay the backoff just produced for the
retry being scheduled, notify calls happen nowhere else and strictly
before the corresponding sleep future is created (and hence before it
completes), and the sequence of delays passed to notify equals the
sequence of delays the backoff produced, in order. -/
theorem claim4_notify_pairs {σ T E Ctx : Type} [DecidableEq E]
    (next : σ → Option Duration × σ) (retryable : E → Bool)
    (future_fn : Nat → Ctx → Ctx × Except E T) (fuel k : Nat) (c : Ctx) (b : σ) :
    notifyOk (pollRun next retryable future_fn fuel (State.Idle (some c)) k b).2 = true
    ∧ (notifyEvents (pollRun next retryable future_fn fuel (State.Idle (some c)) k b).2).map
        Prod.snd
      = scheduledDelays (pollRun next retryable future_fn fuel (State.Idle (some c)) k b).2 :=
  ⟨notifyOk_pollRun next retryable future_fn fuel (State.Idle (some c)) k b,
   notifyDelays_eq_scheduled_pollRun next retryable future_fn fuel (State.Idle (some c)) k b⟩

/-- C5: in every session, each failed attempt is followed by exactly one
predicate query carrying that attempt's error; the backoff is queried at
most once per failed attempt, only after the predicate accepted; after a
successful attempt neither is queried. -/
theorem claim5_pred_then_backoff {σ T E Ctx : Type} [DecidableEq E]
    (next : σ → Option Duration × σ) (retryable : E → Bool)
    (future_fn : Nat → Ctx → Ctx × Except E T) (fuel k : Nat) (c : Ctx) (b : σ) :
    predBackoffOk (pollRun next retryable future_fn fuel (State.Idle (some c)) k b).2 = true :=
  predBackoffOk_pollRun next retryable future_fn fuel (State.Idle (some c)) k b

/-- C6: on every terminal failure path the driver resolves with exactly
the context/error pair some operation invocation produced — it never
constructs, wraps or transforms errors — and the trace ends either with a
predicate rejection of that error or with its predicate acceptance
followed by schedule exhaustion, so the pair is the final attempt's. -/
theorem claim6_error_verbatim {σ T E Ctx : Type} (next : σ → Option Duration × σ)
    (retryable : E → Bool) (future_fn : Nat → Ctx → Ctx × Except E T)
    (fuel k : Nat) (c0 : Ctx) (b : σ) (c : Ctx) (e : E)
    (h : (pollRun next retryable future_fn fuel (State.Idle (some c0)) k b).1
      = RunOutcome.done c (Except.error e)) :
    (∃ j cj, future_fn j cj = (c, Except.error e))
    ∧ ((∃ pre, (pollRun next retryable future_fn fuel (State.Idle (some c0)) k b).2
          = pre ++ [Event.opResolved (some e), Event.predCall e false])
      ∨ (∃ pre, (pollRun next retryable future_fn fuel (State.Idle (some c0)) k b).2
          = pre ++ [Event.opResolved (some e), Event.predCall e true,
              Event.backoffCall none])) := by
  constructor
  · rcases pollRun_done_from_op next retryable future_fn fuel (State.Idle (some c0)) k b c
      (Except.error e) h with h2 | h2
    · exact absurd h2 (by simp)
    · exact h2
  · exact pollRun_error_trace_suffix next retryable future_fn fuel (State.Idle (some c0)) k b c e h

theorem claim6_error_verbatim_witness :
    (∃ j cj, (fun (_ : Nat) (c : Nat) => (c + 1, (Except.error 7 : Except Nat Unit))) j cj
        = (1, Except.error 7))
    ∧ ((∃ pre, (pollRun (fun _ : Unit => (some 1, ())) (fun e : Nat => decide (e = 0))
          (fun _ c => (c + 1, (Except.error 7 : Except Nat Unit))) 2
          (State.Idle (some (0 : Nat))) 0 ()).2
          = pre ++ [Event.opResolved (some 7), Event.predCall 7 false])
      ∨ (∃ pre, (pollRun (fun _ : Unit => (some 1, ())) (fun e : Nat => decide (e = 0))
          (fun _ c => (c + 1, (Except.error 7 : Except Nat Unit))) 2
          (State.Idle (some (0 : Nat))) 0 ()).2
          = pre ++ [Event.opResolved (some 7), Event.predCall 7 true,
              Event.backoffCall none])) :=
  claim6_error_verbatim (fun _ : Unit => (some 1, ())) (fun e : Nat => decide (e = 0))
    (fun _ c => (c + 1, (Except.error 7 : Except Nat Unit))) 2 0 0 () 1 7 rfl

/-- C7: when a session ends in success the driver resolves with exactly
the `(context, Ok(value))` pair some operation invocation produced, and
the trace ends with that successful resolution, so the returned context
is the successful (final) attempt's, not an earlier one. -/
theorem claim7_success_context {σ T E Ctx : Type} (next : σ → Option Duration × σ)
    (retryable : E → Bool) (future_fn : Nat → Ctx → Ctx × Except E T)
    (fuel k : Nat) (c0 : Ctx) (b : σ) (c : Ctx) (v : T)
    (h : (pollRun next retryable future_fn fuel (State.Idle (some c0)) k b).1
      = RunOutcome.done c (Except.ok v)) :
    (∃ j cj, future_fn j cj = (c, Except.ok v))
    ∧ (∃ pre, (pollRun next retryable future_fn fuel (State.Idle (some c0)) k b).2
        = pre ++ [Event.opResolved none]) := by
  constructor
  · rcases pollRun_done_from_op next retryable future_fn fuel (State.Idle (some c0)) k b c
      (Except.ok v) h with h2 | h2
    · exact absurd h2 (by simp)
    · exact h2
  · exact pollRun_ok_trace_suffix next retryable future_fn fuel (State.Idle (some c0)) k b c v h

theorem claim7_success_context_witness :
    (∃ j cj, (fun (_ : Nat) (c : Nat) => (c + 1, (Except.ok 5 : Except Nat Nat))) j cj
        = (1, Except.ok 5))
    ∧ (∃ pre, (pollRun (fun _ : Unit => (some 1, ())) (fun _ : Nat => true)
        (fun _ c => (c + 1, (Except.ok 5 : Except Nat Nat))) 2
        (State.Idle (some (0 : Nat))) 0 ()).2
        = pre ++ [Event.opResolved none]) :=
  claim7_success_context (fun _ : Unit => (some 1, ())) (fun _ : Nat => true)
    (fun _ c => (c + 1, (Except.ok 5 : Except Nat Nat))) 2 0 0 () 1 5 rfl

/-- C8: polling with the context slot absent where a transition expects it
present panics ("context must be valid") instead of proceeding: from
`Idle(None)` — the state of a driver on which `context` was never called,
as `new` leaves it — the poll panics before any event; from a completed
`Sleeping` state with an absent context it panics right after the sleep
completes. -/
theorem claim8_absent_context_panics {σ T E Ctx B FutureFn Fut SleepFut : Type}
    (next : σ → Option Duration × σ) (retryable : E → Bool)
    (future_fn : Nat → Ctx → Ctx × Except E T) (fuel k : Nat) (b : σ) (d : Duration)
    (f : FutureFn) (bo : B) :
    pollRun next retryable future_fn (Nat.succ fuel) (State.Idle none) k b
      = (RunOutcome.panicked, [])
    ∧ pollRun next retryable future_fn (Nat.succ fuel) (State.Sleeping (none, d)) k b
      = (RunOutcome.panicked, [Event.sleepCompleted d])
    ∧ (@RetryWithContext.new B FutureFn Ctx Fut SleepFut E f bo).state
      = State.Idle none :=
  ⟨rfl, rfl, rfl⟩

/-- C9: within one session the driver never queries the backoff again
after a `None` answer: no backoff query follows a `None` answer in any
trace, and a trace containing a `None` answer belongs to a run that
resolved terminally with an error. -/
theorem claim9_none_is_final {σ T E Ctx : Type} (next : σ → Option Duration × σ)
    (retryable : E → Bool) (future_fn : Nat → Ctx → Ctx × Except E T)
    (fuel k : Nat) (c : Ctx) (b : σ) :
    noBackoffAfterNone (pollRun next retryable future_fn fuel (State.Idle (some c)) k b).2 = true
    ∧ (hasBackoffNone (pollRun next retryable future_fn fuel (State.Idle (some c)) k b).2 = true →
        ∃ c2 e, (pollRun next retryable future_fn fuel (State.Idle (some c)) k b).1
          = RunOutcome.done c2 (Except.error e)) :=
  ⟨noBackoffAfterNone_pollRun next retryable future_fn fuel (State.Idle (some c)) k b,
   backoffNone_done_pollRun next retryable future_fn fuel (State.Idle (some c)) k b⟩

theorem claim9_none_is_final_witness :
    noBackoffAfterNone (pollRun (σ := List Duration) listNext (fun _ : Nat => true)
      (fun _ c => (c + 1, (Except.error 7 : Except Nat Unit))) 2
      (State.Idle (some (0 : Nat))) 0 []).2 = true
    ∧ (∃ c2 e, (pollRun (σ := List Duration) listNext (fun _ : Nat => true)
        (fun _ c => (c + 1, (Except.error 7 : Except Nat Unit))) 2
        (State.Idle (some (0 : Nat))) 0 []).1 = RunOutcome.done c2 (Except.error e)) :=
  ⟨(claim9_none_is_final listNext (fun _ : Nat => true)
      (fun _ c => (c + 1, (Except.error 7 : Except Nat Unit))) 2 0 0 []).1,
   (claim9_none_is_final listNext (fun _ : Nat => true)
      (fun _ c => (c + 1, (Except.error 7 : Except Nat Unit))) 2 0 0 []).2 rfl⟩

/-- C10: the `when` and `notify` configuration methods each replace only
their own field — the retry predicate and the notify callback — and carry
the backoff, operation, sleeper and state (including a stored context)
over unchanged, so calling them after `context` preserves the context. -/
theorem claim10_when_notify_frame {B FutureFn SF RF RN NF NN Ctx Fut SleepFut : Type}
    (r : RetryWithContext B FutureFn SF RF NF Ctx Fut SleepFut) (rn : RN) (nn : NN) (c : Ctx) :
    (r.when rn).backoff = r.backoff ∧ (r.when rn).retryable = rn
    ∧ (r.when rn).notify = r.notify ∧ (r.when rn).future_fn = r.future_fn
    ∧ (r.when rn).sleep_fn = r.sleep_fn ∧ (r.when rn).state = r.state
    ∧ (r.withNotify nn).backoff = r.backoff ∧ (r.withNotify nn).retryable = r.retryable
    ∧ (r.withNotify nn).notify = nn ∧ (r.withNotify nn).future_fn = r.future_fn
    ∧ (r.withNotify nn).sleep_fn = r.sleep_fn ∧ (r.withNotify nn).state = r.state
    ∧ ((r.context c).when rn).state = State.Idle (some c)
    ∧ ((r.context c).withNotify nn).state = State.Idle (some c) :=
  ⟨rfl, rfl, rfl, rfl, rfl, rfl, rfl, rfl, rfl, rfl, rfl, rfl, rfl, rfl⟩
